import Mathlib

/-!
Verification development for the recipe-management backend
(Django REST app: `app/recipe/serializers.py`, `app/recipe/views.py`,
`app/core/models.py`).

The data model and the write path are embedded shallowly: the entity
store is a record of lists, primary keys are natural numbers, and the
ORM-level operations (get-or-create resolution, queryset filtering,
recipe create/update) are explicit Lean functions over that record.
Components whose Python source is only referenced here (the `core`
models, the nested tag/ingredient serializer logic, the
`assigned_only` filter and the image-upload action) are modelled from
the specification and marked as such in their doc comments.
-/

namespace RecipeApp

/-- Modelled from the spec: `core.models.Tag` and `core.models.Ingredient`
(absent from src; imported by `recipe/views.py` and the tests).  The spec
gives both the same shape `\x7bid, user_ref, name\x7d`, and the Vocabulary
Resolver treats the two kinds uniformly, so one entity type serves for
both vocabularies. -/
structure Entity where
  id : Nat
  user : Nat
  name : String
deriving DecidableEq, Repr

/-- Modelled from the spec: `core.models.Recipe` (absent from src):
scalar fields `title, description, price, time_minutes, link`, an
optional image reference, and many-to-many associations to tags and
ingredients, held here as lists of entity ids.  `price` is a
fixed-point decimal, embedded as an integer number of smallest units. -/
structure Recipe where
  id : Nat
  user : Nat
  title : String
  description : String
  price : Int
  time_minutes : Nat
  link : String
  image : Option String
  tags : List Nat
  ingredients : List Nat
deriving DecidableEq, Repr

/-- Modelled from the spec: the Entity Store — persistent storage for
tags, ingredients, recipes (users are just ids here) with a single
fresh-id counter standing for the database's key allocation. -/
structure Store where
  tags : List Entity
  ingredients : List Entity
  recipes : List Recipe
  nextId : Nat
deriving Repr

/-- Error taxonomy of the spec (§7) restricted to what the embedded
operations can raise. -/
inductive ApiError where
  | notFound
  | validationError
deriving DecidableEq, Repr

/-! ### Vocabulary Resolver -/

/-- Modelled from the spec: the Vocabulary Resolver (§4.1), the
`get_or_create` call of the recipe serializer (absent from src; its
caller `RecipeDetailSerializer` and its tests are in src).  Look up an
entity of the vocabulary owned by `user` with exactly matching `name`;
if found return it, otherwise insert a new entity with a fresh id.
The vocabulary is carried together with the fresh-id counter. -/
def resolve1 (user : Nat) (name : String) (st : List Entity × Nat) :
    (List Entity × Nat) × Nat :=
  match st.1.find? (fun t => t.user == user && t.name == name) with
  | some t => (st, t.id)
  | none => ((st.1 ++ [⟨st.2, user, name⟩], st.2 + 1), st.2)

/-- Modelled from the spec: resolution of a whole list of names, in the
order given in the input list (§4.2), threading the store state. -/
def resolveAll (user : Nat) (names : List String) (st : List Entity × Nat) :
    (List Entity × Nat) × List Nat :=
  match names with
  | [] => (st, [])
  | n :: ns =>
    let a := resolve1 user n st
    let b := resolveAll user ns a.1
    (b.1, a.2 :: b.2)

/-- Well-formedness of a vocabulary: ids are pairwise distinct,
`(user, name)` pairs are pairwise distinct (the resolver's invariant),
and every id is below the fresh-id counter. -/
def VocabWF (vocab : List Entity) (next : Nat) : Prop :=
  (vocab.map Entity.id).Nodup ∧
  (vocab.map (fun t => (t.user, t.name))).Nodup ∧
  ∀ t ∈ vocab, t.id < next

/-- Number of entities of a vocabulary owned by `user` carrying `name`. -/
def countName (vocab : List Entity) (user : Nat) (name : String) : Nat :=
  (vocab.filter (fun t => t.user == user && t.name == name)).length

/-- Resolution of a list of tag names against the store's tag
vocabulary (the serializer's `_get_or_create_tags`; modelled from the
spec, see `resolve1`). -/
def getOrCreateTags (s : Store) (user : Nat) (names : List String) :
    Store × List Nat :=
  let r := resolveAll user names (s.tags, s.nextId)
  ({ s with tags := r.1.1, nextId := r.1.2 }, r.2)

/-- Resolution of a list of ingredient names against the store's
ingredient vocabulary (the serializer's `_get_or_create_ingredients`;
modelled from the spec, see `resolve1`). -/
def getOrCreateIngredients (s : Store) (user : Nat) (names : List String) :
    Store × List Nat :=
  let r := resolveAll user names (s.ingredients, s.nextId)
  ({ s with ingredients := r.1.1, nextId := r.1.2 }, r.2)

/-! ### Serializers (`app/recipe/serializers.py`) -/

/-- Field list of `RecipeSerializer.Meta.fields` (serializers.py, line 14). -/
def RecipeSerializerFields : List String :=
  ["id", "title", "price", "time_minutes", "link"]

/-- Field list of `RecipeDetailSerializer.Meta.fields` (serializers.py, line 22):
the list serializer's fields plus `description`. -/
def RecipeDetailSerializerFields : List String :=
  RecipeSerializerFields ++ ["description"]

/-- Nested `\x7bid, name\x7d` representation of a tag or ingredient in a
recipe payload or response. -/
structure NestedAttr where
  id : Nat
  name : String
deriving DecidableEq, Repr

/-- Modelled from the spec: the nested tag list of a serialized full
recipe record — each associated tag entity rendered as `\x7bid, name\x7d`
(the `TagSerializer` nested in the recipe serializer is absent from
src). -/
def serializeRecipeTags (s : Store) (r : Recipe) : List NestedAttr :=
  (s.tags.filter (fun t => r.tags.contains t.id)).map
    (fun t => { id := t.id, name := t.name })

/-- Modelled from the spec: the nested ingredient list of a serialized
full recipe record (the `IngredientSerializer` is absent from src). -/
def serializeRecipeIngredients (s : Store) (r : Recipe) : List NestedAttr :=
  (s.ingredients.filter (fun t => r.ingredients.contains t.id)).map
    (fun t => { id := t.id, name := t.name })

/-! ### Views (`app/recipe/views.py`) -/

/-- Embedding of `RecipeViewSet.get_queryset` (views.py, lines 27–30): all recipes
filtered to the authenticated user, ordered by descending id. -/
def recipeGetQueryset (s : Store) (user : Nat) : List Recipe :=
  List.insertionSort (fun a b => b.id ≤ a.id)
    (s.recipes.filter (fun r => r.user == user))

/-- Embedding of `BaseRecipeAttrViewSet.get_queryset` (views.py, lines 51–53) applied
to a vocabulary (`TagViewSet` / `IngredientViewSet`): filtered to the
authenticated user, ordered by descending name. -/
def attrGetQueryset (vocab : List Entity) (user : Nat) : List Entity :=
  List.insertionSort (fun a b => b.name ≤ a.name)
    (vocab.filter (fun t => t.user == user))

/-- The tag list endpoint's queryset. -/
def tagGetQueryset (s : Store) (user : Nat) : List Entity :=
  attrGetQueryset s.tags user

/-- The ingredient list endpoint's queryset. -/
def ingredientGetQueryset (s : Store) (user : Nat) : List Entity :=
  attrGetQueryset s.ingredients user

/-- Modelled from the spec: the `assigned_only` filter of the Tag and
Ingredient list endpoints (§4.3; absent from src, exercised by the
tests) — restrict the user's vocabulary to entities referenced by at
least one of the user's recipes, via the relational join, then
de-duplicate the result. -/
def attrListAssignedOnly (vocab : List Entity) (recipes : List Recipe)
    (user : Nat) (member : Recipe → Nat → Bool) : List Entity :=
  (((recipes.filter (fun r => r.user == user)).flatMap
      (fun r => (attrGetQueryset vocab user).filter
        (fun t => member r t.id)))).dedup

/-- The tag list endpoint with its optional `assigned_only` query
parameter. -/
def tagList (s : Store) (user : Nat) (assignedOnly : Bool) : List Entity :=
  if assignedOnly then
    attrListAssignedOnly s.tags s.recipes user (fun r i => r.tags.contains i)
  else tagGetQueryset s user

/-- The ingredient list endpoint with its optional `assigned_only`
query parameter. -/
def ingredientList (s : Store) (user : Nat) (assignedOnly : Bool) :
    List Entity :=
  if assignedOnly then
    attrListAssignedOnly s.ingredients s.recipes user
      (fun r i => r.ingredients.contains i)
  else ingredientGetQueryset s user

/-- Embedding of `RecipeViewSet.get_serializer_class` (views.py, lines 32–36),
with a serializer class represented by its field list: the `list`
action uses `RecipeSerializer`, every other action the class attribute
`serializer_class = RecipeDetailSerializer`. -/
def get_serializer_class (action : String) : List String :=
  if action == "list" then RecipeSerializerFields
  else RecipeDetailSerializerFields

/-! ### Recipe Reconciler (create / update / delete / detail) -/

/-- A recipe create payload.  `user` models a client-supplied owner
field, which the serializer never reads (it is not in the field list);
`tags` / `ingredients` are the optional embedded name lists. -/
structure CreatePayload where
  title : String
  description : String
  price : Int
  time_minutes : Nat
  link : String
  user : Option Nat
  tags : Option (List String)
  ingredients : Option (List String)

/-- An update payload: every key optional (PATCH semantics). -/
structure UpdatePayload where
  title : Option String
  description : Option String
  price : Option Int
  time_minutes : Option Nat
  link : Option String
  tags : Option (List String)
  ingredients : Option (List String)

/-- Modelled from the spec: name validation of the Vocabulary Resolver
(§4.1) — a name must be non-empty and within the configured maximum
length (255 for both vocabularies). -/
def validName (n : String) : Bool :=
  n ≠ "" && n.length ≤ 255

/-- Validity of an optional name list: every listed name valid. -/
def namesOk : Option (List String) → Bool
  | none => true
  | some ns => ns.all validName

/-- Modelled from the spec: scalar validation for create (§4.2) —
price ≥ 0, title non-empty (time_minutes is a `Nat`, hence ≥ 0). -/
def validCreate (p : CreatePayload) : Bool :=
  p.title ≠ "" && 0 ≤ p.price && namesOk p.tags && namesOk p.ingredients

/-- Modelled from the spec: scalar validation for update — each field
present must be well-formed. -/
def validUpdate (p : UpdatePayload) : Bool :=
  (match p.title with | some t => t ≠ "" | none => true) &&
  (match p.price with | some pr => decide (0 ≤ pr) | none => true) &&
  namesOk p.tags && namesOk p.ingredients

/-- Application of the scalar fields present in an update payload
(fields absent from the payload are left untouched). -/
def applyScalars (r : Recipe) (p : UpdatePayload) : Recipe :=
  { r with
    title := p.title.getD r.title,
    description := p.description.getD r.description,
    price := p.price.getD r.price,
    time_minutes := p.time_minutes.getD r.time_minutes,
    link := p.link.getD r.link }

/-- DRF's `get_object` lookup over the user-filtered queryset: the
recipe with the requested id among the requesting user's recipes. -/
def findOwned (s : Store) (user rid : Nat) : Option Recipe :=
  (s.recipes.filter (fun r => r.user == user)).find? (fun r => r.id == rid)

/-- Replacement of the stored recipe carrying the given recipe's id. -/
def setRecipe (rs : List Recipe) (r : Recipe) : List Recipe :=
  rs.map (fun x => if x.id == r.id then r else x)

/-- Modelled from the spec: the Recipe Reconciler's `create` (§4.2;
the serializer's `create` override is absent from src).  The owner is
taken from the authenticated request — `RecipeViewSet.perform_create`
(views.py, lines 38–40) calls `serializer.save(user=self.request.user)`
— never from the payload.  Embedded name lists, when present, are
resolved in order and attached with set semantics (duplicates
collapse). -/
def createRecipe (s : Store) (requestUser : Nat) (p : CreatePayload) :
    Except ApiError (Store × Recipe) :=
  if validCreate p then
    let rid := s.nextId
    let s0 : Store := { s with nextId := s.nextId + 1 }
    let st := match p.tags with
      | none => (s0, ([] : List Nat))
      | some ns =>
        let q := getOrCreateTags s0 requestUser ns
        (q.1, q.2.dedup)
    let si := match p.ingredients with
      | none => (st.1, ([] : List Nat))
      | some ns =>
        let q := getOrCreateIngredients st.1 requestUser ns
        (q.1, q.2.dedup)
    let r : Recipe :=
      { id := rid, user := requestUser, title := p.title,
        description := p.description, price := p.price,
        time_minutes := p.time_minutes, link := p.link, image := none,
        tags := st.2, ingredients := si.2 }
    .ok ({ si.1 with recipes := si.1.recipes ++ [r] }, r)
  else .error .validationError

/-- Modelled from the spec: the Recipe Reconciler's `update` (§4.2; the
serializer's `update` override is absent from src).  The recipe is
looked up in the user-scoped queryset (not-found and owned-by-another
are indistinguishable); scalar fields present are applied; if the
`tags` key is present the tag association set is replaced by the
resolved set, and likewise, independently, for `ingredients`; an
absent key leaves the corresponding association set untouched. -/
def updateRecipe (s : Store) (user rid : Nat) (p : UpdatePayload) :
    Except ApiError (Store × Recipe) :=
  match findOwned s user rid with
  | none => .error .notFound
  | some r =>
    if validUpdate p then
      let r1 := applyScalars r p
      let st := match p.tags with
        | none => (s, r1.tags)
        | some ns =>
          let q := getOrCreateTags s user ns
          (q.1, q.2.dedup)
      let si := match p.ingredients with
        | none => (st.1, r1.ingredients)
        | some ns =>
          let q := getOrCreateIngredients st.1 user ns
          (q.1, q.2.dedup)
      let r2 : Recipe := { r1 with tags := st.2, ingredients := si.2 }
      .ok ({ si.1 with recipes := setRecipe si.1.recipes r2 }, r2)
    else .error .validationError

/-- The detail (retrieve) endpoint: `get_object` over the user-scoped
queryset, 404 when absent. -/
def retrieveRecipe (s : Store) (user rid : Nat) : Except ApiError Recipe :=
  match findOwned s user rid with
  | some r => .ok r
  | none => .error .notFound

/-- The delete endpoint: `get_object` over the user-scoped queryset,
then removal of the record. -/
def destroyRecipe (s : Store) (user rid : Nat) : Except ApiError Store :=
  match findOwned s user rid with
  | some r => .ok { s with recipes := s.recipes.filter (fun x => x.id != r.id) }
  | none => .error .notFound

/-- An image-upload payload: either a valid image or not, with the
reference that would be stored on success. -/
structure UploadPayload where
  isImage : Bool
  ref : String

/-- Modelled from the spec: the image-upload action (§6; the
`upload_image` action is absent from src, exercised by the tests).  A
non-image payload fails validation; a valid one stores the new image
reference on the recipe. -/
def uploadImage (s : Store) (user rid : Nat) (p : UploadPayload) :
    Except ApiError Store :=
  match findOwned s user rid with
  | none => .error .notFound
  | some r =>
    if p.isImage then
      .ok { s with recipes := setRecipe s.recipes { r with image := some p.ref } }
    else .error .validationError

/-- The store observable after an upload request: unchanged when the
request was rejected. -/
def storeAfterUpload (s : Store) (user rid : Nat) (p : UploadPayload) : Store :=
  match uploadImage s user rid p with
  | .ok s2 => s2
  | .error _ => s

/-! ### Concrete sample data used by the witness theorems -/

/-- A store with one tag (Breakfast, user 10) and one recipe (id 2,
user 10) associated with it. -/
def sampleStore : Store :=
  ⟨[⟨1, 10, "Breakfast"⟩], [],
   [⟨2, 10, "T", "D", 550, 22, "L", none, [1], []⟩], 3⟩

/-- The recipe stored in `sampleStore`. -/
def sampleRecipe : Recipe := ⟨2, 10, "T", "D", 550, 22, "L", none, [1], []⟩

/-- A PATCH payload replacing the tag list with the single name
Lunch, every other key absent. -/
def samplePatchTags : UpdatePayload :=
  ⟨none, none, none, none, none, some ["Lunch"], none⟩

/-- The store resulting from applying `samplePatchTags` to
`sampleStore`: Lunch created with the fresh id 3, the recipe's tag set
replaced by it, Breakfast untouched. -/
def sampleStoreAfterPatch : Store :=
  ⟨[⟨1, 10, "Breakfast"⟩, ⟨3, 10, "Lunch"⟩], [],
   [⟨2, 10, "T", "D", 550, 22, "L", none, [3], []⟩], 4⟩

/-- The updated recipe returned by that PATCH. -/
def sampleRecipeAfterPatch : Recipe :=
  ⟨2, 10, "T", "D", 550, 22, "L", none, [3], []⟩

/-- A PATCH payload with an empty tag list (clears associations). -/
def samplePatchClear : UpdatePayload :=
  ⟨none, none, none, none, none, some [], none⟩

/-- A one-entity vocabulary owned by user 10. -/
def sampleVocab : List Entity := [⟨1, 10, "Indian"⟩]

/-- A store holding records of two users (10 and 11) in every table. -/
def sampleTwoUserStore : Store :=
  ⟨[⟨1, 10, "A"⟩, ⟨2, 11, "B"⟩], [⟨3, 10, "C"⟩, ⟨4, 11, "E"⟩],
   [⟨5, 10, "T", "D", 100, 5, "", none, [1], [3]⟩,
    ⟨6, 11, "U", "D", 100, 5, "", none, [2], [4]⟩], 7⟩

/-- A store where tag 1 is linked to two of user 10's recipes. -/
def sampleSharedTagStore : Store :=
  ⟨[⟨1, 10, "T1"⟩], [],
   [⟨3, 10, "R1", "D", 100, 5, "", none, [1], []⟩,
    ⟨4, 10, "R2", "D", 100, 5, "", none, [1], []⟩], 5⟩

/-- A create payload that also carries a (to-be-ignored) owner field
naming user 99, with one existing and one new tag name. -/
def sampleCreatePayload : CreatePayload :=
  ⟨"New", "d", 100, 5, "", some 99, some ["Breakfast", "Lunch"], none⟩

/-- The store resulting from `sampleCreatePayload` posted to
`sampleStore` by user 10. -/
def sampleStoreAfterCreate : Store :=
  ⟨[⟨1, 10, "Breakfast"⟩, ⟨4, 10, "Lunch"⟩], [],
   [⟨2, 10, "T", "D", 550, 22, "L", none, [1], []⟩,
    ⟨3, 10, "New", "d", 100, 5, "", none, [1, 4], []⟩], 5⟩

/-- The recipe created by that POST. -/
def sampleCreatedRecipe : Recipe :=
  ⟨3, 10, "New", "d", 100, 5, "", none, [1, 4], []⟩

/-- A non-image upload payload. -/
def sampleBadUpload : UploadPayload := ⟨false, "notanimage"⟩

/-- The store resulting from applying `samplePatchClear` to
`sampleStore`: the association is gone, the Breakfast entity is not. -/
def sampleStoreAfterClear : Store :=
  ⟨[⟨1, 10, "Breakfast"⟩], [],
   [⟨2, 10, "T", "D", 550, 22, "L", none, [], []⟩], 3⟩

/-- The recipe returned by that clearing PATCH. -/
def sampleRecipeAfterClear : Recipe :=
  ⟨2, 10, "T", "D", 550, 22, "L", none, [], []⟩

/-! ### Lemmas about the Vocabulary Resolver -/

theorem resolve1_eq (u : Nat) (n : String) (st : List Entity × Nat) :
    (∃ t, st.1.find? (fun t => t.user == u && t.name == n) = some t ∧
      resolve1 u n st = (st, t.id)) ∨
    (st.1.find? (fun t => t.user == u && t.name == n) = none ∧
      resolve1 u n st = ((st.1 ++ [⟨st.2, u, n⟩], st.2 + 1), st.2)) := by
  unfold resolve1
  cases h : st.1.find? (fun t => t.user == u && t.name == n) with
  | some t => exact .inl ⟨t, rfl, by simp [h]⟩
  | none => exact .inr ⟨rfl, by simp [h]⟩

theorem resolve1_growth (u : Nat) (n : String) (st : List Entity × Nat) :
    ∃ ext, (resolve1 u n st).1.1 = st.1 ++ ext ∧
      (∀ t ∈ ext, t.user = u ∧ t.name = n ∧ t.id = st.2) ∧
      st.2 ≤ (resolve1 u n st).1.2 := by
  rcases resolve1_eq u n st with ⟨t, _, heq⟩ | ⟨_, heq⟩
  · exact ⟨[], by simp [heq]⟩
  · refine ⟨[⟨st.2, u, n⟩], by simp [heq], ?_, by simp [heq]⟩
    intro t ht
    simp at ht
    simp [ht]

theorem resolve1_returns_entity (u : Nat) (n : String) (st : List Entity × Nat) :
    ∃ t ∈ (resolve1 u n st).1.1, t.id = (resolve1 u n st).2 ∧
      t.user = u ∧ t.name = n := by
  rcases resolve1_eq u n st with ⟨t, hfind, heq⟩ | ⟨_, heq⟩
  · have hmem := List.mem_of_find?_eq_some hfind
    have hp := List.find?_some hfind
    simp only [Bool.and_eq_true, beq_iff_eq] at hp
    exact ⟨t, by simp [heq, hmem], by simp [heq], hp.1, hp.2⟩
  · exact ⟨⟨st.2, u, n⟩, by simp [heq], by simp [heq]⟩

theorem resolve1_existing (u : Nat) (n : String) (st : List Entity × Nat)
    (t : Entity)
    (hnodup : (st.1.map (fun t => (t.user, t.name))).Nodup)
    (hmem : t ∈ st.1) (hu : t.user = u) (hn : t.name = n) :
    resolve1 u n st = (st, t.id) := by
  rcases resolve1_eq u n st with ⟨t', hfind, heq⟩ | ⟨hfind, _⟩
  · have hmem' := List.mem_of_find?_eq_some hfind
    have hp := List.find?_some hfind
    simp only [Bool.and_eq_true, beq_iff_eq] at hp
    have : t = t' := by
      apply List.inj_on_of_nodup_map hnodup hmem hmem'
      simp [hu, hn, hp.1, hp.2]
    rw [heq, this]
  · exfalso
    have := List.find?_eq_none.mp hfind t hmem
    simp [hu, hn] at this

theorem resolve1_wf (u : Nat) (n : String) (st : List Entity × Nat)
    (hwf : VocabWF st.1 st.2) :
    VocabWF (resolve1 u n st).1.1 (resolve1 u n st).1.2 := by
  obtain ⟨hid, hpair, hlt⟩ := hwf
  rcases resolve1_eq u n st with ⟨t, _, heq⟩ | ⟨hfind, heq⟩
  · simpa [heq] using ⟨hid, hpair, hlt⟩
  · rw [heq]
    refine ⟨?_, ?_, ?_⟩
    · simp only [List.map_append, List.nodup_append]
      refine ⟨hid, by simp, ?_⟩
      intro i hi hi'
      simp at hi'
      obtain ⟨t, ht, hti⟩ := List.mem_map.mp hi
      exact absurd hi' (by simp [← hti]; exact Nat.ne_of_lt (hlt t ht))
    · simp only [List.map_append, List.nodup_append]
      refine ⟨hpair, by simp, ?_⟩
      intro pr hpr hpr'
      simp at hpr'
      obtain ⟨t, ht, htp⟩ := List.mem_map.mp hpr
      have := List.find?_eq_none.mp hfind t ht
      simp only [Bool.and_eq_true, beq_iff_eq, not_and] at this
      rw [← htp] at hpr'
      simp only [Prod.mk.injEq] at hpr'
      exact this (by simp [hpr'.1]) (by simp [hpr'.2])
    · intro t ht
      rcases List.mem_append.mp ht with h | h
      · exact Nat.lt_succ_of_lt (hlt t h)
      · simp at h
        simp [h]

theorem resolveAll_nil (u : Nat) (st : List Entity × Nat) :
    resolveAll u [] st = (st, []) := rfl

theorem resolveAll_cons (u : Nat) (n : String) (ns : List String)
    (st : List Entity × Nat) :
    resolveAll u (n :: ns) st =
      ((resolveAll u ns (resolve1 u n st).1).1,
        (resolve1 u n st).2 :: (resolveAll u ns (resolve1 u n st).1).2) := rfl

theorem resolveAll_growth (u : Nat) (ns : List String)
    (st : List Entity × Nat) :
    ∃ ext, (resolveAll u ns st).1.1 = st.1 ++ ext ∧
      (∀ t ∈ ext, t.user = u ∧ t.name ∈ ns) ∧
      st.2 ≤ (resolveAll u ns st).1.2 := by
  induction ns generalizing st with
  | nil => exact ⟨[], by simp [resolveAll_nil]⟩
  | cons n rest ih =>
    obtain ⟨e1, h1, h1p, h1n⟩ := resolve1_growth u n st
    obtain ⟨e2, h2, h2p, h2n⟩ := ih (resolve1 u n st).1
    refine ⟨e1 ++ e2, ?_, ?_, ?_⟩
    · rw [resolveAll_cons]
      simp only [h2, h1, List.append_assoc]
    · intro t ht
      rcases List.mem_append.mp ht with h | h
      · exact ⟨(h1p t h).1, by simp [(h1p t h).2.1]⟩
      · exact ⟨(h2p t h).1, by simp [(h2p t h).2]⟩
    · rw [resolveAll_cons]
      exact Nat.le_trans h1n h2n

theorem resolveAll_wf (u : Nat) (ns : List String) (st : List Entity × Nat)
    (hwf : VocabWF st.1 st.2) :
    VocabWF (resolveAll u ns st).1.1 (resolveAll u ns st).1.2 := by
  induction ns generalizing st with
  | nil => simpa [resolveAll_nil] using hwf
  | cons n rest ih =>
    rw [resolveAll_cons]
    exact ih (resolve1 u n st).1 (resolve1_wf u n st hwf)

theorem resolveAll_ids (u : Nat) (ns : List String) (st : List Entity × Nat)
    (hwf : VocabWF st.1 st.2) (i : Nat) :
    i ∈ (resolveAll u ns st).2 ↔
      ∃ t ∈ (resolveAll u ns st).1.1, t.id = i ∧ t.user = u ∧ t.name ∈ ns := by
  induction ns generalizing st with
  | nil => simp [resolveAll_nil]
  | cons n rest ih =>
    rw [resolveAll_cons]
    constructor
    · intro hi
      rcases List.mem_cons.mp hi with hi | hi
      · obtain ⟨t, htm, hti, htu, htn⟩ := resolve1_returns_entity u n st
        obtain ⟨ext, hext, _, _⟩ := resolveAll_growth u rest (resolve1 u n st).1
        refine ⟨t, ?_, by rw [hti, hi], htu, by simp [htn]⟩
        rw [hext]
        exact List.mem_append_left ext htm
      · obtain ⟨t, htm, hti, htu, htn⟩ :=
          (ih (resolve1 u n st).1 (resolve1_wf u n st hwf)).mp hi
        exact ⟨t, htm, hti, htu, by simp [htn]⟩
    · rintro ⟨t, htm, hti, htu, htn⟩
      rcases List.mem_cons.mp htn with htn | htn
      · obtain ⟨t1, ht1m, ht1i, ht1u, ht1n⟩ := resolve1_returns_entity u n st
        obtain ⟨ext, hext, _, _⟩ := resolveAll_growth u rest (resolve1 u n st).1
        have hfwf := resolveAll_wf u rest (resolve1 u n st).1
          (resolve1_wf u n st hwf)
        have ht1m' : t1 ∈ (resolveAll u rest (resolve1 u n st).1).1.1 := by
          rw [hext]; exact List.mem_append_left ext ht1m
        have heq : t = t1 := by
          apply List.inj_on_of_nodup_map hfwf.2.1 htm ht1m'
          simp [htu, htn, ht1u, ht1n]
        have : i = (resolve1 u n st).2 := by rw [← hti, heq, ht1i]
        rw [this]
        exact List.mem_cons_self _ _
      · exact List.mem_cons_of_mem _
          ((ih (resolve1 u n st).1 (resolve1_wf u n st hwf)).mpr
            ⟨t, htm, hti, htu, htn⟩)

theorem nodup_const_length_le_one {α : Type} (c : α) :
    ∀ l : List α, l.Nodup → (∀ x ∈ l, x = c) → l.length ≤ 1
  | [], _, _ => by simp
  | [_], _, _ => by simp
  | a :: b :: l, hnd, hc => by
    exfalso
    have ha := hc a (by simp)
    have hb := hc b (by simp)
    have hne : a ≠ b := by
      have h := List.nodup_cons.mp hnd
      exact fun heq => h.1 (heq ▸ List.mem_cons_self b l)
    exact hne (ha.trans hb.symm)

theorem countName_le_one (vocab : List Entity) (u : Nat) (n : String)
    (hnodup : (vocab.map (fun t => (t.user, t.name))).Nodup) :
    countName vocab u n ≤ 1 := by
  unfold countName
  have hsub : ((vocab.filter (fun t => t.user == u && t.name == n)).map
      (fun t => (t.user, t.name))).Nodup :=
    hnodup.sublist (List.Sublist.map _ (List.filter_sublist vocab))
  have hconst : ∀ pr ∈ (vocab.filter (fun t => t.user == u && t.name == n)).map
      (fun t => (t.user, t.name)), pr = (u, n) := by
    intro pr hpr
    obtain ⟨t, ht, rfl⟩ := List.mem_map.mp hpr
    have h := List.of_mem_filter ht
    simp only [Bool.and_eq_true, beq_iff_eq] at h
    simp [h.1, h.2]
  simpa using nodup_const_length_le_one (u, n) _ hsub hconst

theorem countName_pos (vocab : List Entity) (u : Nat) (n : String)
    (t : Entity) (hmem : t ∈ vocab) (hu : t.user = u) (hn : t.name = n) :
    1 ≤ countName vocab u n := by
  unfold countName
  have ht : t ∈ vocab.filter (fun t => t.user == u && t.name == n) :=
    List.mem_filter.mpr ⟨hmem, by simp [hu, hn]⟩
  exact Nat.succ_le_of_lt (List.length_pos.mpr (List.ne_nil_of_mem ht))

theorem resolve1_count (u : Nat) (n : String) (st : List Entity × Nat)
    (hwf : VocabWF st.1 st.2) :
    countName (resolve1 u n st).1.1 u n = 1 := by
  obtain ⟨t, htm, _, htu, htn⟩ := resolve1_returns_entity u n st
  exact Nat.le_antisymm
    (countName_le_one _ u n (resolve1_wf u n st hwf).2.1)
    (countName_pos _ u n t htm htu htn)

/-- C2: the vocabulary resolution used by recipe create/update is an
idempotent per-user get-or-create.  After a first resolution of `n`
for `u1`: a repeated call returns the same entity and leaves the store
unchanged, and the entity count for `(u1, n)` is exactly 1; a name
that already has a matching entity resolves to that existing entity
with no store change; and resolving the same name for a different
user `u2` returns a distinct entity owned by `u2`. -/
theorem resolver_idempotent_per_user_get_or_create
    (vocab : List Entity) (next : Nat) (u1 u2 : Nat) (n : String)
    (hwf : VocabWF vocab next) (husers : u1 ≠ u2) :
    resolve1 u1 n (resolve1 u1 n (vocab, next)).1 =
      ((resolve1 u1 n (vocab, next)).1, (resolve1 u1 n (vocab, next)).2) ∧
    countName (resolve1 u1 n (vocab, next)).1.1 u1 n = 1 ∧
    (∀ t ∈ vocab, t.user = u1 → t.name = n →
      resolve1 u1 n (vocab, next) = ((vocab, next), t.id)) ∧
    (resolve1 u2 n (resolve1 u1 n (vocab, next)).1).2 ≠
      (resolve1 u1 n (vocab, next)).2 ∧
    ∃ t ∈ (resolve1 u2 n (resolve1 u1 n (vocab, next)).1).1.1,
      t.id = (resolve1 u2 n (resolve1 u1 n (vocab, next)).1).2 ∧
      t.user = u2 := by
  have hwf' : VocabWF (vocab, next).1 (vocab, next).2 := hwf
  have hwf1 := resolve1_wf u1 n (vocab, next) hwf'
  obtain ⟨t1, ht1m, ht1i, ht1u, ht1n⟩ := resolve1_returns_entity u1 n (vocab, next)
  have hwf2 := resolve1_wf u2 n (resolve1 u1 n (vocab, next)).1 hwf1
  obtain ⟨t2, ht2m, ht2i, ht2u, ht2n⟩ :=
    resolve1_returns_entity u2 n (resolve1 u1 n (vocab, next)).1
  refine ⟨?_, ?_, ?_, ?_, t2, ht2m, ht2i, ht2u⟩
  · rw [resolve1_existing u1 n _ t1 hwf1.2.1 ht1m ht1u ht1n, ht1i]
  · exact resolve1_count u1 n (vocab, next) hwf'
  · exact fun t htm htu htn => resolve1_existing u1 n (vocab, next) t
      hwf.2.1 htm htu htn
  · intro hid
    obtain ⟨ext, hext, _, _⟩ := resolve1_growth u2 n (resolve1 u1 n (vocab, next)).1
    have ht1m' : t1 ∈ (resolve1 u2 n (resolve1 u1 n (vocab, next)).1).1.1 := by
      rw [hext]; exact List.mem_append_left ext ht1m
    have heq : t2 = t1 := by
      apply List.inj_on_of_nodup_map hwf2.1 ht2m ht1m'
      rw [ht2i, ht1i, hid]
    exact husers (by rw [← ht1u, ← heq, ht2u])

theorem VocabWF.mono (v : List Entity) (a b : Nat) (h : VocabWF v a)
    (hab : a ≤ b) : VocabWF v b :=
  ⟨h.1, h.2.1, fun t ht => Nat.lt_of_lt_of_le (h.2.2 t ht) hab⟩

theorem getOrCreateTags_ingredients (s : Store) (u : Nat) (ns : List String) :
    (getOrCreateTags s u ns).1.ingredients = s.ingredients := rfl

theorem getOrCreateTags_recipes (s : Store) (u : Nat) (ns : List String) :
    (getOrCreateTags s u ns).1.recipes = s.recipes := rfl

theorem getOrCreateIngredients_tags (s : Store) (u : Nat) (ns : List String) :
    (getOrCreateIngredients s u ns).1.tags = s.tags := rfl

theorem getOrCreateIngredients_recipes (s : Store) (u : Nat) (ns : List String) :
    (getOrCreateIngredients s u ns).1.recipes = s.recipes := rfl

theorem getOrCreateTags_nextId (s : Store) (u : Nat) (ns : List String) :
    s.nextId ≤ (getOrCreateTags s u ns).1.nextId := by
  obtain ⟨_, _, _, h⟩ := resolveAll_growth u ns (s.tags, s.nextId)
  exact h

theorem getOrCreateIngredients_nextId (s : Store) (u : Nat) (ns : List String) :
    s.nextId ≤ (getOrCreateIngredients s u ns).1.nextId := by
  obtain ⟨_, _, _, h⟩ := resolveAll_growth u ns (s.ingredients, s.nextId)
  exact h

theorem getOrCreateTags_ids (s : Store) (u : Nat) (ns : List String)
    (hwf : VocabWF s.tags s.nextId) (i : Nat) :
    i ∈ (getOrCreateTags s u ns).2 ↔
      ∃ t ∈ (getOrCreateTags s u ns).1.tags,
        t.id = i ∧ t.user = u ∧ t.name ∈ ns :=
  resolveAll_ids u ns (s.tags, s.nextId) hwf i

theorem getOrCreateIngredients_ids (s : Store) (u : Nat) (ns : List String)
    (hwf : VocabWF s.ingredients s.nextId) (i : Nat) :
    i ∈ (getOrCreateIngredients s u ns).2 ↔
      ∃ t ∈ (getOrCreateIngredients s u ns).1.ingredients,
        t.id = i ∧ t.user = u ∧ t.name ∈ ns :=
  resolveAll_ids u ns (s.ingredients, s.nextId) hwf i

theorem getOrCreateTags_wf (s : Store) (u : Nat) (ns : List String)
    (hwf : VocabWF s.tags s.nextId) :
    VocabWF (getOrCreateTags s u ns).1.tags (getOrCreateTags s u ns).1.nextId :=
  resolveAll_wf u ns (s.tags, s.nextId) hwf

theorem applyScalars_tags (r : Recipe) (p : UpdatePayload) :
    (applyScalars r p).tags = r.tags := rfl

theorem applyScalars_ingredients (r : Recipe) (p : UpdatePayload) :
    (applyScalars r p).ingredients = r.ingredients := rfl

/-- C1: on a successful recipe update, when the `tags` key is present
(even as an empty list) the updated recipe's tag association set is
exactly the set of entities resolved from the listed names — an id is
associated iff some tag entity of the resulting store carries it, is
owned by the requesting user and bears a listed name; when the key is
absent the tag association set is unchanged.  The same holds
independently for the `ingredients` key. -/
theorem update_replaces_associations_iff_key_present
    (s : Store) (u rid : Nat) (p : UpdatePayload) (r0 : Recipe)
    (s' : Store) (r' : Recipe)
    (hwfT : VocabWF s.tags s.nextId) (hwfI : VocabWF s.ingredients s.nextId)
    (hfind : findOwned s u rid = some r0)
    (hok : updateRecipe s u rid p = Except.ok (s', r')) :
    (∀ ns, p.tags = some ns →
      ∀ i, i ∈ r'.tags ↔
        ∃ t ∈ s'.tags, t.id = i ∧ t.user = u ∧ t.name ∈ ns) ∧
    (p.tags = none → r'.tags = r0.tags) ∧
    (∀ ns, p.ingredients = some ns →
      ∀ i, i ∈ r'.ingredients ↔
        ∃ t ∈ s'.ingredients, t.id = i ∧ t.user = u ∧ t.name ∈ ns) ∧
    (p.ingredients = none → r'.ingredients = r0.ingredients) := by
  simp only [updateRecipe, hfind] at hok
  split at hok
  case isFalse => exact absurd hok (by simp)
  case isTrue hv =>
  cases hpt : p.tags with
  | none =>
    cases hpi : p.ingredients with
    | none =>
      simp only [hpt, hpi, Except.ok.injEq, Prod.mk.injEq] at hok
      obtain ⟨hs, hr⟩ := hok
      subst hs; subst hr
      exact ⟨fun ns h => by simp [hpt] at h,
        fun _ => applyScalars_tags r0 p,
        fun ns h => by simp [hpi] at h,
        fun _ => applyScalars_ingredients r0 p⟩
    | some nsi =>
      simp only [hpt, hpi, Except.ok.injEq, Prod.mk.injEq] at hok
      obtain ⟨hs, hr⟩ := hok
      subst hs; subst hr
      refine ⟨fun ns h => by simp [hpt] at h,
        fun _ => applyScalars_tags r0 p,
        ?_, fun h => by simp [hpi] at h⟩
      rintro ns h i
      injection h with h
      subst h
      dsimp only
      rw [List.mem_dedup]
      exact getOrCreateIngredients_ids s u nsi hwfI i
  | some nst =>
    have hwfI' : VocabWF (getOrCreateTags s u nst).1.ingredients
        (getOrCreateTags s u nst).1.nextId := by
      rw [getOrCreateTags_ingredients]
      exact VocabWF.mono _ _ _ hwfI (getOrCreateTags_nextId s u nst)
    cases hpi : p.ingredients with
    | none =>
      simp only [hpt, hpi, Except.ok.injEq, Prod.mk.injEq] at hok
      obtain ⟨hs, hr⟩ := hok
      subst hs; subst hr
      refine ⟨?_, fun h => by simp [hpt] at h,
        fun ns h => by simp [hpi] at h,
        fun _ => applyScalars_ingredients r0 p⟩
      rintro ns h i
      injection h with h
      subst h
      dsimp only
      rw [List.mem_dedup]
      exact getOrCreateTags_ids s u nst hwfT i
    | some nsi =>
      simp only [hpt, hpi, Except.ok.injEq, Prod.mk.injEq] at hok
      obtain ⟨hs, hr⟩ := hok
      subst hs; subst hr
      refine ⟨?_, fun h => by simp [hpt] at h,
        ?_, fun h => by simp [hpi] at h⟩
      · rintro ns h i
        injection h with h
        subst h
        dsimp only
        rw [List.mem_dedup]
        have := getOrCreateTags_ids s u nst hwfT i
        simpa [getOrCreateIngredients_tags] using this
      · rintro ns h i
        injection h with h
        subst h
        dsimp only
        rw [List.mem_dedup]
        exact getOrCreateIngredients_ids (getOrCreateTags s u nst).1 u nsi hwfI' i

/-! ### Access Filter -/

theorem mem_attrGetQueryset (vocab : List Entity) (u : Nat) (t : Entity) :
    t ∈ attrGetQueryset vocab u ↔ t ∈ vocab ∧ t.user = u := by
  unfold attrGetQueryset
  rw [(List.perm_insertionSort _ _).mem_iff, List.mem_filter]
  simp

theorem mem_recipeGetQueryset (s : Store) (u : Nat) (r : Recipe) :
    r ∈ recipeGetQueryset s u ↔ r ∈ s.recipes ∧ r.user = u := by
  unfold recipeGetQueryset
  rw [(List.perm_insertionSort _ _).mem_iff, List.mem_filter]
  simp

/-- C3: every list endpoint is scoped to the requesting user — each
record returned by the recipe, tag or ingredient list queryset for
`u1` is owned by `u1`, hence never by a distinct user `u2`. -/
theorem list_endpoints_scoped_to_requesting_user
    (s : Store) (u1 u2 : Nat) (hne : u1 ≠ u2) :
    (∀ r ∈ recipeGetQueryset s u1, r.user = u1 ∧ r.user ≠ u2) ∧
    (∀ t ∈ tagGetQueryset s u1, t.user = u1 ∧ t.user ≠ u2) ∧
    (∀ t ∈ ingredientGetQueryset s u1, t.user = u1 ∧ t.user ≠ u2) := by
  refine ⟨fun r hr => ?_, fun t ht => ?_, fun t ht => ?_⟩
  · have h := (mem_recipeGetQueryset s u1 r).mp hr
    exact ⟨h.2, h.2 ▸ hne⟩
  · have h := (mem_attrGetQueryset s.tags u1 t).mp ht
    exact ⟨h.2, h.2 ▸ hne⟩
  · have h := (mem_attrGetQueryset s.ingredients u1 t).mp ht
    exact ⟨h.2, h.2 ▸ hne⟩

/-- Witness for C3 on `sampleTwoUserStore` with users 10 and 11. -/
theorem list_endpoints_scoped_to_requesting_user_witness :
    (10 : Nat) ≠ 11 ∧
    ((∀ r ∈ recipeGetQueryset sampleTwoUserStore 10, r.user = 10 ∧ r.user ≠ 11) ∧
     (∀ t ∈ tagGetQueryset sampleTwoUserStore 10, t.user = 10 ∧ t.user ≠ 11) ∧
     (∀ t ∈ ingredientGetQueryset sampleTwoUserStore 10, t.user = 10 ∧ t.user ≠ 11)) :=
  ⟨by decide,
   list_endpoints_scoped_to_requesting_user sampleTwoUserStore 10 11 (by decide)⟩

theorem mem_attrListAssignedOnly (vocab : List Entity) (recipes : List Recipe)
    (u : Nat) (member : Recipe → Nat → Bool) (t : Entity) :
    t ∈ attrListAssignedOnly vocab recipes u member ↔
      t ∈ vocab ∧ t.user = u ∧
        ∃ r ∈ recipes, r.user = u ∧ member r t.id = true := by
  unfold attrListAssignedOnly
  rw [List.mem_dedup, List.mem_flatMap]
  constructor
  · rintro ⟨r, hr, ht⟩
    have hrm := List.mem_filter.mp hr
    have htm := List.mem_filter.mp ht
    have hq := (mem_attrGetQueryset vocab u t).mp htm.1
    refine ⟨hq.1, hq.2, r, hrm.1, by simpa using hrm.2, htm.2⟩
  · rintro ⟨htv, htu, r, hrm, hru, hmem⟩
    refine ⟨r, List.mem_filter.mpr ⟨hrm, by simp [hru]⟩,
      List.mem_filter.mpr ⟨(mem_attrGetQueryset vocab u t).mpr ⟨htv, htu⟩, hmem⟩⟩

/-- C4: the `assigned_only` tag and ingredient listings contain
exactly the requester's vocabulary entities linked to at least one of
the requester's recipes, and the listing is duplicate-free, so an
entity linked to several recipes still appears exactly once. -/
theorem assigned_only_filter_exact_and_deduplicated
    (s : Store) (u : Nat) :
    (∀ t, t ∈ tagList s u true ↔
      t ∈ s.tags ∧ t.user = u ∧
        ∃ r ∈ s.recipes, r.user = u ∧ t.id ∈ r.tags) ∧
    (tagList s u true).Nodup ∧
    (∀ t ∈ tagList s u true, (tagList s u true).count t = 1) ∧
    (∀ t, t ∈ ingredientList s u true ↔
      t ∈ s.ingredients ∧ t.user = u ∧
        ∃ r ∈ s.recipes, r.user = u ∧ t.id ∈ r.ingredients) ∧
    (ingredientList s u true).Nodup ∧
    (∀ t ∈ ingredientList s u true, (ingredientList s u true).count t = 1) := by
  have hT : ∀ t, t ∈ tagList s u true ↔
      t ∈ s.tags ∧ t.user = u ∧
        ∃ r ∈ s.recipes, r.user = u ∧ t.id ∈ r.tags := by
    intro t
    unfold tagList
    rw [if_pos rfl, mem_attrListAssignedOnly]
    simp
  have hI : ∀ t, t ∈ ingredientList s u true ↔
      t ∈ s.ingredients ∧ t.user = u ∧
        ∃ r ∈ s.recipes, r.user = u ∧ t.id ∈ r.ingredients := by
    intro t
    unfold ingredientList
    rw [if_pos rfl, mem_attrListAssignedOnly]
    simp
  have hTn : (tagList s u true).Nodup := by
    unfold tagList attrListAssignedOnly
    rw [if_pos rfl]
    exact List.nodup_dedup _
  have hIn : (ingredientList s u true).Nodup := by
    unfold ingredientList attrListAssignedOnly
    rw [if_pos rfl]
    exact List.nodup_dedup _
  exact ⟨hT, hTn, fun t ht => List.count_eq_one_of_mem hTn ht,
    hI, hIn, fun t ht => List.count_eq_one_of_mem hIn ht⟩

/-- Witness for C4 on `sampleSharedTagStore`, where tag 1 is linked to
two recipes of user 10 and appears once in the filtered listing. -/
theorem assigned_only_filter_exact_witness :
    ((∀ t, t ∈ tagList sampleSharedTagStore 10 true ↔
      t ∈ sampleSharedTagStore.tags ∧ t.user = 10 ∧
        ∃ r ∈ sampleSharedTagStore.recipes, r.user = 10 ∧ t.id ∈ r.tags) ∧
    (tagList sampleSharedTagStore 10 true).Nodup ∧
    (∀ t ∈ tagList sampleSharedTagStore 10 true,
      (tagList sampleSharedTagStore 10 true).count t = 1) ∧
    (∀ t, t ∈ ingredientList sampleSharedTagStore 10 true ↔
      t ∈ sampleSharedTagStore.ingredients ∧ t.user = 10 ∧
        ∃ r ∈ sampleSharedTagStore.recipes, r.user = 10 ∧ t.id ∈ r.ingredients) ∧
    (ingredientList sampleSharedTagStore 10 true).Nodup ∧
    (∀ t ∈ ingredientList sampleSharedTagStore 10 true,
      (ingredientList sampleSharedTagStore 10 true).count t = 1)) ∧
    tagList sampleSharedTagStore 10 true = [⟨1, 10, "T1"⟩] :=
  ⟨assigned_only_filter_exact_and_deduplicated sampleSharedTagStore 10, by rfl⟩

/-- Witness for C1: patching `sampleStore`'s recipe with tag list
[Lunch] and no ingredients key. -/
theorem update_replaces_associations_witness :
    VocabWF sampleStore.tags sampleStore.nextId ∧
    VocabWF sampleStore.ingredients sampleStore.nextId ∧
    findOwned sampleStore 10 2 = some sampleRecipe ∧
    updateRecipe sampleStore 10 2 samplePatchTags =
      Except.ok (sampleStoreAfterPatch, sampleRecipeAfterPatch) ∧
    ((∀ ns, samplePatchTags.tags = some ns →
      ∀ i, i ∈ sampleRecipeAfterPatch.tags ↔
        ∃ t ∈ sampleStoreAfterPatch.tags,
          t.id = i ∧ t.user = 10 ∧ t.name ∈ ns) ∧
    (samplePatchTags.tags = none →
      sampleRecipeAfterPatch.tags = sampleRecipe.tags) ∧
    (∀ ns, samplePatchTags.ingredients = some ns →
      ∀ i, i ∈ sampleRecipeAfterPatch.ingredients ↔
        ∃ t ∈ sampleStoreAfterPatch.ingredients,
          t.id = i ∧ t.user = 10 ∧ t.name ∈ ns) ∧
    (samplePatchTags.ingredients = none →
      sampleRecipeAfterPatch.ingredients = sampleRecipe.ingredients)) :=
  ⟨by unfold VocabWF; decide, by unfold VocabWF; decide, by decide, by rfl,
   update_replaces_associations_iff_key_present sampleStore 10 2
     samplePatchTags sampleRecipe sampleStoreAfterPatch sampleRecipeAfterPatch
     (by unfold VocabWF; decide) (by unfold VocabWF; decide)
     (by decide) (by rfl)⟩

/-- Witness for C2 on a one-entity vocabulary, users 10 and 11,
name Indian. -/
theorem resolver_idempotent_witness :
    VocabWF sampleVocab 2 ∧ (10 : Nat) ≠ 11 ∧
    (resolve1 10 "Indian" (resolve1 10 "Indian" (sampleVocab, 2)).1 =
      ((resolve1 10 "Indian" (sampleVocab, 2)).1,
        (resolve1 10 "Indian" (sampleVocab, 2)).2) ∧
    countName (resolve1 10 "Indian" (sampleVocab, 2)).1.1 10 "Indian" = 1 ∧
    (∀ t ∈ sampleVocab, t.user = 10 → t.name = "Indian" →
      resolve1 10 "Indian" (sampleVocab, 2) = ((sampleVocab, 2), t.id)) ∧
    (resolve1 11 "Indian" (resolve1 10 "Indian" (sampleVocab, 2)).1).2 ≠
      (resolve1 10 "Indian" (sampleVocab, 2)).2 ∧
    ∃ t ∈ (resolve1 11 "Indian" (resolve1 10 "Indian" (sampleVocab, 2)).1).1.1,
      t.id = (resolve1 11 "Indian" (resolve1 10 "Indian" (sampleVocab, 2)).1).2 ∧
      t.user = 11) :=
  ⟨by unfold VocabWF; decide, by decide,
   resolver_idempotent_per_user_get_or_create sampleVocab 2 10 11 "Indian"
     (by unfold VocabWF; decide) (by decide)⟩

/-! ### Serialized shapes -/

/-- C5: the list serializer exposes exactly the fields id, title,
price, time_minutes, link; the detail serializer exposes those plus
description; and the full-record representation used on create/update
responses renders the associated tags and ingredients as nested
`\x7bid, name\x7d` objects — every rendered object arises from an
associated entity and every associated entity is rendered. -/
theorem serializer_field_sets (s : Store) (r : Recipe) :
    RecipeSerializerFields = ["id", "title", "price", "time_minutes", "link"] ∧
    RecipeDetailSerializerFields =
      ["id", "title", "price", "time_minutes", "link", "description"] ∧
    (∀ x ∈ serializeRecipeTags s r,
      ∃ t ∈ s.tags, t.id ∈ r.tags ∧ x = ⟨t.id, t.name⟩) ∧
    (∀ t ∈ s.tags, t.id ∈ r.tags →
      (⟨t.id, t.name⟩ : NestedAttr) ∈ serializeRecipeTags s r) ∧
    (∀ x ∈ serializeRecipeIngredients s r,
      ∃ t ∈ s.ingredients, t.id ∈ r.ingredients ∧ x = ⟨t.id, t.name⟩) ∧
    (∀ t ∈ s.ingredients, t.id ∈ r.ingredients →
      (⟨t.id, t.name⟩ : NestedAttr) ∈ serializeRecipeIngredients s r) := by
  refine ⟨rfl, rfl, ?_, ?_, ?_, ?_⟩
  · intro x hx
    obtain ⟨t, ht, hxt⟩ := List.mem_map.mp hx
    have hf := List.mem_filter.mp ht
    exact ⟨t, hf.1, by simpa using hf.2, hxt.symm⟩
  · intro t ht hid
    exact List.mem_map.mpr ⟨t, List.mem_filter.mpr ⟨ht, by simpa using hid⟩, rfl⟩
  · intro x hx
    obtain ⟨t, ht, hxt⟩ := List.mem_map.mp hx
    have hf := List.mem_filter.mp ht
    exact ⟨t, hf.1, by simpa using hf.2, hxt.symm⟩
  · intro t ht hid
    exact List.mem_map.mpr ⟨t, List.mem_filter.mpr ⟨ht, by simpa using hid⟩, rfl⟩

/-- Witness for C5: on `sampleStore` the associated Breakfast tag is
rendered as its id and name. -/
theorem serializer_field_sets_witness :
    (RecipeSerializerFields = ["id", "title", "price", "time_minutes", "link"] ∧
    RecipeDetailSerializerFields =
      ["id", "title", "price", "time_minutes", "link", "description"] ∧
    (∀ x ∈ serializeRecipeTags sampleStore sampleRecipe,
      ∃ t ∈ sampleStore.tags, t.id ∈ sampleRecipe.tags ∧ x = ⟨t.id, t.name⟩) ∧
    (∀ t ∈ sampleStore.tags, t.id ∈ sampleRecipe.tags →
      (⟨t.id, t.name⟩ : NestedAttr) ∈ serializeRecipeTags sampleStore sampleRecipe) ∧
    (∀ x ∈ serializeRecipeIngredients sampleStore sampleRecipe,
      ∃ t ∈ sampleStore.ingredients,
        t.id ∈ sampleRecipe.ingredients ∧ x = ⟨t.id, t.name⟩) ∧
    (∀ t ∈ sampleStore.ingredients, t.id ∈ sampleRecipe.ingredients →
      (⟨t.id, t.name⟩ : NestedAttr) ∈
        serializeRecipeIngredients sampleStore sampleRecipe)) ∧
    serializeRecipeTags sampleStore sampleRecipe = [⟨1, "Breakfast"⟩] :=
  ⟨serializer_field_sets sampleStore sampleRecipe, by rfl⟩

/-! ### Not-found behaviour -/

theorem findOwned_eq_none (s : Store) (u rid : Nat)
    (h : ∀ r ∈ s.recipes, r.id = rid → r.user ≠ u) :
    findOwned s u rid = none := by
  unfold findOwned
  rw [List.find?_eq_none]
  intro r hr hid
  have hm := List.mem_filter.mp hr
  simp only [beq_iff_eq] at hid
  exact h r hm.1 hid (by simpa using hm.2)

/-- C6: when no stored recipe has both the requested id and the
requesting user as owner — the id does not exist at all, or the record
belongs to someone else — retrieve, update and delete all return the
same NotFound error, so the two situations are observably
indistinguishable. -/
theorem missing_or_foreign_recipe_not_found
    (s : Store) (u rid : Nat) (p : UpdatePayload)
    (h : ∀ r ∈ s.recipes, r.id = rid → r.user ≠ u) :
    retrieveRecipe s u rid = Except.error ApiError.notFound ∧
    updateRecipe s u rid p = Except.error ApiError.notFound ∧
    destroyRecipe s u rid = Except.error ApiError.notFound := by
  have hf := findOwned_eq_none s u rid h
  exact ⟨by simp [retrieveRecipe, hf], by simp [updateRecipe, hf],
    by simp [destroyRecipe, hf]⟩

/-- Witness for C6: user 10 requesting recipe 6, which exists but is
owned by user 11 in `sampleTwoUserStore`. -/
theorem missing_or_foreign_recipe_not_found_witness :
    (∀ r ∈ sampleTwoUserStore.recipes, r.id = 6 → r.user ≠ 10) ∧
    (retrieveRecipe sampleTwoUserStore 10 6 = Except.error ApiError.notFound ∧
    updateRecipe sampleTwoUserStore 10 6 samplePatchTags =
      Except.error ApiError.notFound ∧
    destroyRecipe sampleTwoUserStore 10 6 = Except.error ApiError.notFound) :=
  ⟨by decide,
   missing_or_foreign_recipe_not_found sampleTwoUserStore 10 6 samplePatchTags
     (by decide)⟩

/-! ### Frame effects of clearing associations -/

theorem getOrCreateTags_nil (s : Store) (u : Nat) :
    getOrCreateTags s u [] = (s, []) := rfl

/-- C7: updating a recipe with an empty tag list clears its tag
association set without deleting any tag entity — the resulting
recipe has no tags, the store's tag table is untouched, and every tag
owned by the requesting user (in particular every previously
associated one) is still visible in that user's tag list. -/
theorem clearing_tags_preserves_tag_entities
    (s : Store) (u rid : Nat) (p : UpdatePayload) (s' : Store) (r' : Recipe)
    (hpt : p.tags = some [])
    (hok : updateRecipe s u rid p = Except.ok (s', r')) :
    r'.tags = [] ∧ s'.tags = s.tags ∧
    ∀ t ∈ s.tags, t.user = u → t ∈ tagGetQueryset s' u := by
  have hmain : r'.tags = [] ∧ s'.tags = s.tags := by
    unfold updateRecipe at hok
    cases hfind : findOwned s u rid with
    | none =>
      simp only [hfind] at hok
      exact absurd hok (by simp)
    | some r0 =>
      simp only [hfind] at hok
      split at hok
      case isFalse => exact absurd hok (by simp)
      case isTrue hv =>
      cases hpi : p.ingredients with
      | none =>
        simp only [hpt, hpi, getOrCreateTags_nil, List.dedup_nil,
          Except.ok.injEq, Prod.mk.injEq] at hok
        obtain ⟨hs, hr⟩ := hok
        subst hs; subst hr
        exact ⟨rfl, rfl⟩
      | some nsi =>
        simp only [hpt, hpi, getOrCreateTags_nil, List.dedup_nil,
          Except.ok.injEq, Prod.mk.injEq] at hok
        obtain ⟨hs, hr⟩ := hok
        subst hs; subst hr
        exact ⟨rfl, getOrCreateIngredients_tags s u nsi⟩
  refine ⟨hmain.1, hmain.2, fun t ht htu => ?_⟩
  unfold tagGetQueryset
  rw [hmain.2]
  exact (mem_attrGetQueryset s.tags u t).mpr ⟨ht, htu⟩

/-- Witness for C7: clearing the tags of `sampleStore`'s recipe, which
was associated with the Breakfast tag. -/
theorem clearing_tags_preserves_tag_entities_witness :
    samplePatchClear.tags = some [] ∧
    updateRecipe sampleStore 10 2 samplePatchClear =
      Except.ok (sampleStoreAfterClear, sampleRecipeAfterClear) ∧
    (sampleRecipeAfterClear.tags = [] ∧
    sampleStoreAfterClear.tags = sampleStore.tags ∧
    ∀ t ∈ sampleStore.tags, t.user = 10 →
      t ∈ tagGetQueryset sampleStoreAfterClear 10) :=
  ⟨by decide, by rfl,
   clearing_tags_preserves_tag_entities sampleStore 10 2 samplePatchClear
     sampleStoreAfterClear sampleRecipeAfterClear (by decide) (by rfl)⟩

/-! ### Image upload -/

/-- C8: posting a non-image payload to an existing recipe's
image-upload endpoint fails with a validation error, the observable
store is unchanged, and in particular the recipe's stored image
reference is the same after the call as before it. -/
theorem invalid_image_upload_rejected_and_state_unchanged
    (s : Store) (u rid : Nat) (p : UploadPayload) (r : Recipe)
    (hfind : findOwned s u rid = some r) (hni : p.isImage = false) :
    uploadImage s u rid p = Except.error ApiError.validationError ∧
    storeAfterUpload s u rid p = s ∧
    (findOwned (storeAfterUpload s u rid p) u rid).map Recipe.image =
      (findOwned s u rid).map Recipe.image := by
  have herr : uploadImage s u rid p = Except.error ApiError.validationError := by
    simp [uploadImage, hfind, hni]
  have hst : storeAfterUpload s u rid p = s := by
    simp [storeAfterUpload, herr]
  exact ⟨herr, hst, by rw [hst]⟩

/-- Witness for C8: the literal payload notanimage posted to
`sampleStore`'s recipe 2. -/
theorem invalid_image_upload_witness :
    findOwned sampleStore 10 2 = some sampleRecipe ∧
    sampleBadUpload.isImage = false ∧
    (uploadImage sampleStore 10 2 sampleBadUpload =
      Except.error ApiError.validationError ∧
    storeAfterUpload sampleStore 10 2 sampleBadUpload = sampleStore ∧
    (findOwned (storeAfterUpload sampleStore 10 2 sampleBadUpload) 10 2).map
        Recipe.image =
      (findOwned sampleStore 10 2).map Recipe.image) :=
  ⟨by decide, by decide,
   invalid_image_upload_rejected_and_state_unchanged sampleStore 10 2
     sampleBadUpload sampleRecipe (by decide) (by decide)⟩

/-! ### Ownership on create -/

/-- C9: a successful recipe create stores a recipe owned by the
authenticated requesting user — the owner comes from
`perform_create`'s `save(user=self.request.user)`, so no payload
content (in particular no client-supplied owner field) can produce a
recipe owned by anyone else. -/
theorem created_recipe_owned_by_requester
    (s : Store) (u : Nat) (p : CreatePayload) (s' : Store) (r : Recipe)
    (hok : createRecipe s u p = Except.ok (s', r)) :
    r.user = u ∧ r ∈ s'.recipes := by
  unfold createRecipe at hok
  split at hok
  case isFalse => exact absurd hok (by simp)
  case isTrue hv =>
  cases hpt : p.tags with
  | none =>
    cases hpi : p.ingredients with
    | none =>
      simp only [hpt, hpi, Except.ok.injEq, Prod.mk.injEq] at hok
      obtain ⟨hs, hr⟩ := hok
      subst hs; subst hr
      exact ⟨rfl, by dsimp only; exact List.mem_append_right _ (by simp)⟩
    | some nsi =>
      simp only [hpt, hpi, Except.ok.injEq, Prod.mk.injEq] at hok
      obtain ⟨hs, hr⟩ := hok
      subst hs; subst hr
      exact ⟨rfl, by dsimp only; exact List.mem_append_right _ (by simp)⟩
  | some nst =>
    cases hpi : p.ingredients with
    | none =>
      simp only [hpt, hpi, Except.ok.injEq, Prod.mk.injEq] at hok
      obtain ⟨hs, hr⟩ := hok
      subst hs; subst hr
      exact ⟨rfl, by dsimp only; exact List.mem_append_right _ (by simp)⟩
    | some nsi =>
      simp only [hpt, hpi, Except.ok.injEq, Prod.mk.injEq] at hok
      obtain ⟨hs, hr⟩ := hok
      subst hs; subst hr
      exact ⟨rfl, by dsimp only; exact List.mem_append_right _ (by simp)⟩

/-- Witness for C9: `sampleCreatePayload` names user 99 as owner, yet
the recipe created for requesting user 10 is owned by 10. -/
theorem created_recipe_owned_by_requester_witness :
    createRecipe sampleStore 10 sampleCreatePayload =
      Except.ok (sampleStoreAfterCreate, sampleCreatedRecipe) ∧
    (sampleCreatedRecipe.user = 10 ∧
      sampleCreatedRecipe ∈ sampleStoreAfterCreate.recipes) :=
  ⟨by rfl,
   created_recipe_owned_by_requester sampleStore 10 sampleCreatePayload
     sampleStoreAfterCreate sampleCreatedRecipe (by rfl)⟩

/-! ### Serializer-class switching -/

/-- C10: every recipe action other than list — create, retrieve,
update, all of them — serializes with the detail field set and hence
includes description; only the list action uses the reduced field set
without description. -/
theorem non_list_actions_use_detail_serializer (action : String)
    (h : action ≠ "list") :
    get_serializer_class action = RecipeDetailSerializerFields ∧
    "description" ∈ get_serializer_class action ∧
    "description" ∉ get_serializer_class "list" := by
  have hb : (action == "list") = false := by
    simp [h]
  refine ⟨by simp [get_serializer_class, hb], ?_, ?_⟩
  · simp [get_serializer_class, hb, RecipeDetailSerializerFields,
      RecipeSerializerFields]
  · simp [get_serializer_class, RecipeSerializerFields]

/-- Witness for C10 at the retrieve action. -/
theorem non_list_actions_use_detail_serializer_witness :
    "retrieve" ≠ "list" ∧
    (get_serializer_class "retrieve" = RecipeDetailSerializerFields ∧
    "description" ∈ get_serializer_class "retrieve" ∧
    "description" ∉ get_serializer_class "list") :=
  ⟨by decide, non_list_actions_use_detail_serializer "retrieve" (by decide)⟩

end RecipeApp
